/-
Verification of the ttc-speed-cache collection pipeline.

The definitions below are a shallow embedding of the TypeScript sources
(scripts/cache-speeds.ts and the Vercel handler variant).  JavaScript
numbers are modelled as exact rationals (ℚ) where the code does arithmetic,
and as msgpack-level byte patterns where the code serializes them.  Each
definition's doc comment names the source function it embeds.
-/
import Mathlib

namespace TTC

/-! ## JavaScript values (for the XML-attribute normalization helper) -/

/-- A JavaScript value as seen by `asArray`.  Finite numbers are carried as
exact rationals; `nan` is kept separate because it is falsy.  Objects and
arrays carry their contents structurally. -/
inductive JSValue where
  | null
  | undef
  | bool (b : Bool)
  | num (q : ℚ)
  | nan
  | str (s : String)
  | arr (xs : List JSValue)
  | obj (fields : List (String × JSValue))

/-- JavaScript truthiness test (the `!value` check): `null`, `undefined`,
`false`, `0`, `NaN` and the empty string are falsy; everything else,
including the empty array, is truthy. -/
def jsFalsy : JSValue → Bool
  | .null => true
  | .undef => true
  | .bool b => !b
  | .num q => q = 0
  | .nan => true
  | .str s => s = ""
  | .arr _ => false
  | .obj _ => false

/-- Embeds `asArray` (cache-speeds.ts:31-34): `if (!value) return [];
return Array.isArray(value) ? value : [value];`. -/
def asArray (value : JSValue) : List JSValue :=
  if jsFalsy value then []
  else match value with
    | .arr xs => xs
    | v => [v]

/-! ## The speed validator `parseSpeedKmh` -/

/-- Numeric value of a decimal digit character. -/
def digitVal (c : Char) : ℕ := c.toNat - '0'.toNat

/-- Reads a maximal run of decimal digits, returning the accumulated value,
the number of digits read, and the remaining characters. -/
def readDigits (acc : ℕ) (cnt : ℕ) : List Char → ℕ × ℕ × List Char
  | [] => (acc, cnt, [])
  | c :: cs =>
    if c.isDigit then readDigits (acc * 10 + digitVal c) (cnt + 1) cs
    else (acc, cnt, c :: cs)

/-- Reads an optional exponent part and the end of input, finishing the
JavaScript string-to-number conversion of a mantissa `mnum / mden`.
Returns `none` (NaN) on trailing junk or a digitless exponent. -/
def jsExponent (sign : ℤ) (mnum : ℕ) (mden : ℕ) : List Char → Option ℚ
  | [] => some (Rat.divInt (sign * mnum) mden)
  | e :: cs1 =>
    if e = 'e' ∨ e = 'E' then
      let (epos, cs2) : Bool × List Char :=
        match cs1 with
        | '+' :: t => (true, t)
        | '-' :: t => (false, t)
        | t => (true, t)
      let (ev, ecnt, cs3) := readDigits 0 0 cs2
      if ecnt = 0 ∨ cs3 ≠ [] then none
      else if epos then some (Rat.divInt (sign * (mnum * 10 ^ ev : ℕ)) mden)
      else some (Rat.divInt (sign * mnum) (mden * 10 ^ ev : ℕ))
    else none

/-- Model of the JavaScript `Number(string)` conversion on an already
trimmed string, returning `none` for every non-finite result (NaN or
±Infinity).  The modelled grammar is sign, decimal digits with optional
fraction, optional decimal exponent, and the `Infinity` literal; the hex,
octal and binary integer forms are omitted (the feed only carries plain
decimals).  `Number("")` is `0`, matching JavaScript, though the caller
already filters that case out. -/
def jsNumber (s : String) : Option ℚ :=
  match s.data with
  | [] => some 0
  | cs =>
    let (sign, cs1) : ℤ × List Char :=
      match cs with
      | '+' :: t => (1, t)
      | '-' :: t => (-1, t)
      | t => (1, t)
    if cs1 = "Infinity".data then none
    else
      let (ip, icnt, cs2) := readDigits 0 0 cs1
      match cs2 with
      | '.' :: cs3 =>
        let (fp, fcnt, cs4) := readDigits 0 0 cs3
        if icnt = 0 ∧ fcnt = 0 then none
        else jsExponent sign (ip * 10 ^ fcnt + fp) (10 ^ fcnt) cs4
      | _ =>
        if icnt = 0 then none else jsExponent sign ip 1 cs2

/-- Model of `String.prototype.trim`: strips leading and trailing
whitespace characters (the core whitespace set; the exotic Unicode spaces
JavaScript also strips do not occur in the feed). -/
def jsTrim (s : String) : String :=
  ⟨((s.data.dropWhile Char.isWhitespace).reverse.dropWhile
      Char.isWhitespace).reverse⟩

/-- Embeds `parseSpeedKmh` (cache-speeds.ts:36-46).  The call sites only
ever pass XML attribute values, which the parser delivers as strings (or
`undefined` when the attribute is absent), so the input is modelled as
`Option String`; `none` covers the `value === null || value === undefined`
branch and `String(value)` is then the identity. -/
def parseSpeedKmh (value : Option String) : Option ℚ :=
  match value with
  | none => none
  | some v =>
    let raw := jsTrim v
    if raw.length = 0 then none
    else
      match jsNumber raw with
      | none => none
      | some n => if n < 0 then none else some n

/-! ## Aggregation (`fetchCurrentSpeeds`) -/

/-- The persisted unit: the positional 4-tuple
`[timestampMs, routeTag, speedKmh, vehicleCount]` of cache-speeds.ts:15,
with the numeric fields as exact values. -/
structure SpeedRecord where
  timestampMs : ℤ
  routeTag : String
  speedKmh : ℚ
  vehicleCount : ℕ
deriving DecidableEq, Repr

/-- One `<vehicle>` element of the feed, reduced to the two attributes the
loop reads.  `none` models an absent attribute (`undefined`); present
attributes are strings because the XML parser is configured without
attribute value parsing. -/
structure Vehicle where
  routeTag : Option String
  speedKmHr : Option String

/-- The body of the per-vehicle loop (cache-speeds.ts:133-141): skip the
vehicle unless its route tag is a non-empty string and its speed validates,
otherwise yield the (routeTag, speedKmh) contribution. -/
def validObs (v : Vehicle) : Option (String × ℚ) :=
  match v.routeTag with
  | none => none
  | some r =>
    if r.length = 0 then none
    else
      match parseSpeedKmh v.speedKmHr with
      | none => none
      | some q => some (r, q)

/-- The accumulator object `routeData`: an insertion-ordered association
list from route tag to `(total_speed, total_trams)`. -/
def RouteData := List (String × ℚ × ℕ)

/-- Association-list lookup on `routeData`. -/
def alookup : List (String × ℚ × ℕ) → String → Option (ℚ × ℕ)
  | [], _ => none
  | p :: rest, r => if p.1 = r then some p.2 else alookup rest r

/-- Embeds the accumulation step (cache-speeds.ts:142-149): create the
route's entry on first sight, then add the speed to `total_speed` and
bump `total_trams`. -/
def bump (rd : List (String × ℚ × ℕ)) (r : String) (q : ℚ) :
    List (String × ℚ × ℕ) :=
  if rd.any (fun p => p.1 = r) then
    rd.map (fun p => if p.1 = r then (p.1, p.2.1 + q, p.2.2 + 1) else p)
  else rd ++ [(r, q, 1)]

/-- One iteration of the `for (const vehicle of vehicles)` loop. -/
def stepVehicle (rd : List (String × ℚ × ℕ)) (v : Vehicle) :
    List (String × ℚ × ℕ) :=
  match validObs v with
  | none => rd
  | some (r, q) => bump rd r q

/-- The whole per-vehicle loop, starting from the empty `routeData`. -/
def buildRouteData (vs : List Vehicle) : List (String × ℚ × ℕ) :=
  vs.foldl stepVehicle []

/-- Models `parseFloat(x.toFixed(1))` on an exact value: the multiple of
one tenth nearest to `x`, ties resolved to the larger candidate (the
ECMAScript `toFixed` tie rule). -/
def toFixed1 (x : ℚ) : ℚ := (⌊x * 10 + 1 / 2⌋ : ℤ) / 10

/-- Rounding to one decimal place with ties away from zero, as the spec
words it; compared against `toFixed1` below. -/
def round1AwayFromZero (x : ℚ) : ℚ :=
  ((if 0 ≤ x then ⌊x * 10 + 1 / 2⌋ else ⌈x * 10 - 1 / 2⌉ : ℤ) : ℚ) / 10

/-- Embeds the record-emission loop of `fetchCurrentSpeeds`
(cache-speeds.ts:153-162): one record per `routeData` entry with a
positive vehicle count, carrying the cycle timestamp and the rounded
average speed.  The network fetch and XML parse are factored out: `vs` is
the already-parsed vehicle list and `nowMs` the `Date.now()` captured at
the top of the call. -/
def fetchCurrentSpeeds (nowMs : ℤ) (vs : List Vehicle) : List SpeedRecord :=
  (buildRouteData vs).filterMap fun p =>
    if p.2.2 ≤ 0 then none
    else some ⟨nowMs, p.1, toFixed1 (p.2.1 / (p.2.2 : ℚ)), p.2.2⟩

/-- The valid (non-excluded) observations of a vehicle list, as
(routeTag, speed) pairs. -/
def validPairs (vs : List Vehicle) : List (String × ℚ) :=
  vs.filterMap validObs

/-- Number of valid observations carrying a given route tag. -/
def countTag (ps : List (String × ℚ)) (r : String) : ℕ :=
  (ps.filter fun p => p.1 = r).length

/-- Sum of the valid speeds carrying a given route tag. -/
def sumTag (ps : List (String × ℚ)) (r : String) : ℚ :=
  ((ps.filter fun p => p.1 = r).map Prod.snd).sum

/-- Accumulated `total_speed` of an optional `routeData` entry. -/
def accS (o : Option (ℚ × ℕ)) : ℚ := o.elim 0 Prod.fst

/-- Accumulated `total_trams` of an optional `routeData` entry. -/
def accC (o : Option (ℚ × ℕ)) : ℕ := o.elim 0 Prod.snd

/-- The per-vehicle loop restricted to the valid observations: folding
`bump` over (tag, speed) pairs. -/
def bumpAll (rd : List (String × ℚ × ℕ)) (ps : List (String × ℚ)) :
    List (String × ℚ × ℕ) :=
  ps.foldl (fun a p => bump a p.1 p.2) rd

theorem alookup_eq_none_iff (rd : List (String × ℚ × ℕ)) (r : String) :
    alookup rd r = none ↔ r ∉ rd.map Prod.fst := by
  induction rd with
  | nil => simp [alookup]
  | cons p rest ih =>
    by_cases h : p.1 = r
    · simp [alookup, h]
    · have hrp : ¬ r = p.1 := fun hh => h hh.symm
      simp [alookup, h, hrp, ih]

theorem any_key_iff (rd : List (String × ℚ × ℕ)) (r : String) :
    (rd.any fun p => p.1 = r) = true ↔ r ∈ rd.map Prod.fst := by
  simp [List.any_eq_true, List.mem_map]

theorem alookup_map_update_self (rd : List (String × ℚ × ℕ)) (r : String) (q : ℚ) :
    alookup (rd.map fun p => if p.1 = r then (p.1, p.2.1 + q, p.2.2 + 1) else p) r =
      (alookup rd r).map (fun sc => (sc.1 + q, sc.2 + 1)) := by
  induction rd with
  | nil => simp [alookup]
  | cons p rest ih =>
    by_cases hp : p.1 = r
    · simp [alookup, hp]
    · simp [alookup, hp, ih]

theorem alookup_map_update_ne (rd : List (String × ℚ × ℕ)) (r r' : String) (q : ℚ)
    (h : r' ≠ r) :
    alookup (rd.map fun p => if p.1 = r then (p.1, p.2.1 + q, p.2.2 + 1) else p) r' =
      alookup rd r' := by
  induction rd with
  | nil => simp [alookup]
  | cons p rest ih =>
    have hrr : ¬ r = r' := fun hh => h hh.symm
    by_cases hp : p.1 = r
    · have hp' : ¬ p.1 = r' := fun hh => h (hh ▸ hp)
      simp [alookup, hp, hp', hrr, h, ih]
    · by_cases hp' : p.1 = r' <;> simp [alookup, hp, hp', hrr, h, ih]

theorem alookup_append (rd rd₂ : List (String × ℚ × ℕ)) (r : String) :
    alookup (rd ++ rd₂) r =
      match alookup rd r with
      | none => alookup rd₂ r
      | some v => some v := by
  induction rd with
  | nil => simp [alookup]
  | cons p rest ih =>
    by_cases hp : p.1 = r <;> simp [alookup, hp, ih]

theorem alookup_bump_self (rd : List (String × ℚ × ℕ)) (r : String) (q : ℚ) :
    alookup (bump rd r q) r =
      some (accS (alookup rd r) + q, accC (alookup rd r) + 1) := by
  unfold bump
  by_cases hmem : (rd.any fun p => p.1 = r) = true
  · rw [if_pos hmem, alookup_map_update_self]
    have hsome : alookup rd r ≠ none := by
      rw [Ne, alookup_eq_none_iff]
      simpa using (any_key_iff rd r).mp hmem
    rcases Option.ne_none_iff_exists'.mp hsome with ⟨sc, hsc⟩
    rw [hsc]
    simp [accS, accC, hsc]
  · rw [if_neg hmem, alookup_append]
    have hnone : alookup rd r = none := by
      rw [alookup_eq_none_iff]
      intro hmm
      exact hmem ((any_key_iff rd r).mpr hmm)
    rw [hnone]
    simp [alookup, accS, accC]

theorem alookup_bump_ne (rd : List (String × ℚ × ℕ)) (r r' : String) (q : ℚ)
    (h : r' ≠ r) : alookup (bump rd r q) r' = alookup rd r' := by
  unfold bump
  by_cases hmem : (rd.any fun p => p.1 = r) = true
  · rw [if_pos hmem, alookup_map_update_ne rd r r' q h]
  · rw [if_neg hmem, alookup_append]
    have hr : ¬ r = r' := fun hh => h hh.symm
    cases hl : alookup rd r' with
    | none => simp [alookup, hr]
    | some v => simp

theorem foldl_step_eq_bumpAll (vs : List Vehicle) (rd : List (String × ℚ × ℕ)) :
    vs.foldl stepVehicle rd = bumpAll rd (validPairs vs) := by
  induction vs generalizing rd with
  | nil => rfl
  | cons v vs ih =>
    show vs.foldl stepVehicle (stepVehicle rd v) = _
    rw [ih]
    unfold validPairs stepVehicle
    cases hv : validObs v with
    | none => simp [List.filterMap_cons, hv]
    | some p =>
      cases p with
      | mk r q => simp [List.filterMap_cons, hv, bumpAll]

theorem countTag_cons (p : String × ℚ) (ps : List (String × ℚ)) (r : String) :
    countTag (p :: ps) r =
      if p.1 = r then countTag ps r + 1 else countTag ps r := by
  by_cases hp : p.1 = r <;> simp [countTag, List.filter_cons, hp]

theorem sumTag_cons (p : String × ℚ) (ps : List (String × ℚ)) (r : String) :
    sumTag (p :: ps) r =
      if p.1 = r then p.2 + sumTag ps r else sumTag ps r := by
  by_cases hp : p.1 = r <;> simp [sumTag, List.filter_cons, hp]

theorem sumTag_eq_zero (ps : List (String × ℚ)) (r : String)
    (h : countTag ps r = 0) : sumTag ps r = 0 := by
  unfold countTag at h
  unfold sumTag
  rw [List.length_eq_zero] at h
  rw [h]
  simp

theorem alookup_bumpAll (ps : List (String × ℚ)) (rd : List (String × ℚ × ℕ))
    (r : String) :
    alookup (bumpAll rd ps) r =
      if countTag ps r = 0 then alookup rd r
      else some (accS (alookup rd r) + sumTag ps r,
                 accC (alookup rd r) + countTag ps r) := by
  induction ps generalizing rd with
  | nil => simp [bumpAll, countTag]
  | cons p ps ih =>
    have hstep : bumpAll rd (p :: ps) = bumpAll (bump rd p.1 p.2) ps := rfl
    rw [hstep, ih, countTag_cons, sumTag_cons]
    by_cases hp : p.1 = r
    · rw [if_pos hp, if_pos hp]
      have hb : alookup (bump rd p.1 p.2) r =
          some (accS (alookup rd r) + p.2, accC (alookup rd r) + 1) := by
        rw [hp, alookup_bump_self]
      by_cases hc : countTag ps r = 0
      · rw [if_pos hc, if_neg (by omega : ¬ countTag ps r + 1 = 0), hb,
          sumTag_eq_zero ps r hc, hc]
        ring_nf
      · rw [if_neg hc, if_neg (by omega : ¬ countTag ps r + 1 = 0), hb]
        simp only [accS, accC, Option.elim_some]
        rw [Option.some_inj, Prod.ext_iff]
        constructor
        · ring
        · simp only
          omega
    · rw [if_neg hp, if_neg hp]
      have hb : alookup (bump rd p.1 p.2) r = alookup rd r :=
        alookup_bump_ne rd p.1 r p.2 (fun hh => hp hh.symm)
      rw [hb]

theorem map_fst_bump (rd : List (String × ℚ × ℕ)) (r : String) (q : ℚ) :
    (bump rd r q).map Prod.fst =
      if (rd.any fun p => p.1 = r) = true then rd.map Prod.fst
      else rd.map Prod.fst ++ [r] := by
  unfold bump
  by_cases hmem : (rd.any fun p => p.1 = r) = true
  · rw [if_pos hmem, if_pos hmem, List.map_map]
    congr 1
    funext p
    by_cases hp : p.1 = r <;> simp [Function.comp, hp]
  · rw [if_neg hmem, if_neg hmem]
    simp

theorem nodup_keys_bump (rd : List (String × ℚ × ℕ)) (r : String) (q : ℚ)
    (h : (rd.map Prod.fst).Nodup) : ((bump rd r q).map Prod.fst).Nodup := by
  rw [map_fst_bump]
  by_cases hmem : (rd.any fun p => p.1 = r) = true
  · rw [if_pos hmem]
    exact h
  · rw [if_neg hmem]
    have hr : r ∉ rd.map Prod.fst := fun hmm => hmem ((any_key_iff rd r).mpr hmm)
    simp [List.nodup_append, h, hr]

theorem nodup_keys_bumpAll (ps : List (String × ℚ)) (rd : List (String × ℚ × ℕ))
    (h : (rd.map Prod.fst).Nodup) : ((bumpAll rd ps).map Prod.fst).Nodup := by
  induction ps generalizing rd with
  | nil => exact h
  | cons p ps ih => exact ih (bump rd p.1 p.2) (nodup_keys_bump rd p.1 p.2 h)

theorem nodup_keys_buildRouteData (vs : List Vehicle) :
    ((buildRouteData vs).map Prod.fst).Nodup := by
  unfold buildRouteData
  rw [foldl_step_eq_bumpAll]
  exact nodup_keys_bumpAll (validPairs vs) [] (by simp)

theorem alookup_buildRouteData (vs : List Vehicle) (r : String) :
    alookup (buildRouteData vs) r =
      if countTag (validPairs vs) r = 0 then none
      else some (sumTag (validPairs vs) r, countTag (validPairs vs) r) := by
  unfold buildRouteData
  rw [foldl_step_eq_bumpAll, alookup_bumpAll]
  by_cases hc : countTag (validPairs vs) r = 0
  · rw [if_pos hc, if_pos hc]
    rfl
  · rw [if_neg hc, if_neg hc]
    simp [alookup, accS, accC]

theorem filter_key_eq_nil (rd : List (String × ℚ × ℕ)) (r : String)
    (h : r ∉ rd.map Prod.fst) : rd.filter (fun p => p.1 = r) = [] := by
  induction rd with
  | nil => rfl
  | cons p rest ih =>
    have hp : ¬ p.1 = r := by
      intro hh
      exact h (by simp [hh])
    rw [List.filter_cons_of_neg (by simpa using hp)]
    exact ih (fun hh => h (by simp; right; simpa using hh))

theorem filter_key_eq_single (rd : List (String × ℚ × ℕ)) (r : String)
    (sc : ℚ × ℕ) (hn : (rd.map Prod.fst).Nodup) (hl : alookup rd r = some sc) :
    rd.filter (fun p => p.1 = r) = [(r, sc)] := by
  induction rd with
  | nil => simp [alookup] at hl
  | cons p rest ih =>
    by_cases hp : p.1 = r
    · have hv : p.2 = sc := by
        have : alookup (p :: rest) r = some p.2 := by simp [alookup, hp]
        rw [hl] at this
        exact (Option.some_inj.mp this).symm
      have hpe : p = (r, sc) := by
        cases p with
        | mk a b => simp only [Prod.mk.injEq]; exact ⟨hp, hv⟩
      rw [List.filter_cons_of_pos (by simpa using hp), hpe]
      rw [List.map_cons] at hn
      have hrest : r ∉ rest.map Prod.fst := by
        have h1 := (List.nodup_cons.mp hn).1
        rw [hp] at h1
        exact h1
      rw [filter_key_eq_nil rest r hrest]
    · rw [List.filter_cons_of_neg (by simpa using hp)]
      rw [List.map_cons] at hn
      exact ih (List.nodup_cons.mp hn).2 (by simpa [alookup, hp] using hl)

theorem filter_filterMap_comm {α β : Type} (f : α → Option β) (P : β → Bool)
    (Q : α → Bool) (h : ∀ a b, f a = some b → P b = Q a) (l : List α) :
    (l.filterMap f).filter P = (l.filter Q).filterMap f := by
  induction l with
  | nil => rfl
  | cons a l ih =>
    cases hfa : f a with
    | none =>
      by_cases hq : Q a = true <;>
        simp [List.filterMap_cons, List.filter_cons, hfa, hq, ih]
    | some b =>
      have hpb : P b = Q a := h a b hfa
      by_cases hq : Q a = true <;>
        simp [List.filterMap_cons, List.filter_cons, hfa, hq, hpb, ih]

theorem mem_map_filterMap {α β γ : Type} (f : α → Option β) (g : α → γ)
    (gb : β → γ) (h : ∀ a b, f a = some b → gb b = g a) (l : List α)
    (x : γ) (hx : x ∈ (l.filterMap f).map gb) : x ∈ l.map g := by
  rcases List.mem_map.mp hx with ⟨b, hb, hgb⟩
  rcases List.mem_filterMap.mp hb with ⟨a, ha, hfa⟩
  exact List.mem_map.mpr ⟨a, ha, by rw [← h a b hfa, hgb]⟩

theorem nodup_map_filterMap {α β γ : Type} (f : α → Option β) (g : α → γ)
    (gb : β → γ) (h : ∀ a b, f a = some b → gb b = g a) (l : List α)
    (hn : (l.map g).Nodup) : ((l.filterMap f).map gb).Nodup := by
  induction l with
  | nil => simp
  | cons a l ih =>
    rw [List.map_cons] at hn
    have hn' := List.nodup_cons.mp hn
    cases hfa : f a with
    | none =>
      rw [List.filterMap_cons_none hfa]
      exact ih hn'.2
    | some b =>
      rw [List.filterMap_cons_some hfa, List.map_cons]
      refine List.nodup_cons.mpr ⟨?_, ih hn'.2⟩
      intro hmem
      rw [h a b hfa] at hmem
      exact hn'.1 (mem_map_filterMap f g gb h l (g a) hmem)

theorem parseSpeedKmh_nonneg (v : Option String) (q : ℚ)
    (h : parseSpeedKmh v = some q) : 0 ≤ q := by
  cases v with
  | none => exact absurd h (by simp [parseSpeedKmh])
  | some s =>
    simp only [parseSpeedKmh] at h
    by_cases h0 : (jsTrim s).length = 0
    · rw [if_pos h0] at h
      exact absurd h (by simp)
    · rw [if_neg h0] at h
      cases hj : jsNumber (jsTrim s) with
      | none =>
        rw [hj] at h
        exact absurd h (by simp)
      | some n =>
        rw [hj] at h
        dsimp only at h
        by_cases hneg : n < 0
        · rw [if_pos hneg] at h
          exact absurd h (by simp)
        · rw [if_neg hneg] at h
          have hq : n = q := Option.some_inj.mp h
          rw [← hq]
          linarith [not_lt.mp hneg]

theorem validObs_props (v : Vehicle) (r : String) (q : ℚ)
    (h : validObs v = some (r, q)) : r ≠ "" ∧ 0 ≤ q := by
  unfold validObs at h
  cases hr : v.routeTag with
  | none =>
    rw [hr] at h
    exact absurd h (by simp)
  | some r0 =>
    rw [hr] at h
    dsimp only at h
    by_cases h0 : r0.length = 0
    · rw [if_pos h0] at h
      exact absurd h (by simp)
    · rw [if_neg h0] at h
      cases hp : parseSpeedKmh v.speedKmHr with
      | none =>
        rw [hp] at h
        exact absurd h (by simp)
      | some n =>
        rw [hp] at h
        dsimp only at h
        have hrq : r0 = r ∧ n = q := by
          have := Option.some_inj.mp h
          exact ⟨congrArg Prod.fst this, congrArg Prod.snd this⟩
        constructor
        · rw [← hrq.1]
          intro hh
          rw [hh] at h0
          exact h0 rfl
        · rw [← hrq.2]
          exact parseSpeedKmh_nonneg v.speedKmHr n hp

theorem validPairs_props (vs : List Vehicle) (p : String × ℚ)
    (hp : p ∈ validPairs vs) : p.1 ≠ "" ∧ 0 ≤ p.2 := by
  rcases List.mem_filterMap.mp hp with ⟨v, _, hv⟩
  exact validObs_props v p.1 p.2 (by rw [hv])

theorem sumTag_nonneg (ps : List (String × ℚ)) (r : String)
    (h : ∀ p ∈ ps, 0 ≤ p.2) : 0 ≤ sumTag ps r := by
  unfold sumTag
  apply List.sum_nonneg
  intro x hx
  rcases List.mem_map.mp hx with ⟨p, hpmem, hps⟩
  rw [← hps]
  exact h p (List.mem_filter.mp hpmem).1

theorem exists_of_countTag_ne_zero (ps : List (String × ℚ)) (r : String)
    (h : countTag ps r ≠ 0) : ∃ p ∈ ps, p.1 = r := by
  unfold countTag at h
  cases hf : ps.filter (fun p => p.1 = r) with
  | nil => exact absurd (by rw [hf]; rfl) h
  | cons p rest =>
    have hpmem : p ∈ ps.filter (fun p => p.1 = r) := by
      rw [hf]
      exact List.mem_cons_self p rest
    have := List.mem_filter.mp hpmem
    exact ⟨p, this.1, by simpa using this.2⟩

theorem toFixed1_eq_round1AwayFromZero (x : ℚ) (h : 0 ≤ x) :
    toFixed1 x = round1AwayFromZero x := by
  unfold toFixed1 round1AwayFromZero
  rw [if_pos h]

theorem fetchCurrentSpeeds_filter_eq (nowMs : ℤ) (vs : List Vehicle) (r : String) :
    (fetchCurrentSpeeds nowMs vs).filter (fun rec => rec.routeTag = r) =
      ((buildRouteData vs).filter (fun p => p.1 = r)).filterMap (fun p =>
        if p.2.2 ≤ 0 then none
        else some ⟨nowMs, p.1, toFixed1 (p.2.1 / (p.2.2 : ℚ)), p.2.2⟩) := by
  unfold fetchCurrentSpeeds
  apply filter_filterMap_comm
  intro p rec hf
  by_cases hc : p.2.2 ≤ 0
  · rw [if_pos hc] at hf
    exact absurd hf (by simp)
  · rw [if_neg hc] at hf
    have : rec = ⟨nowMs, p.1, toFixed1 (p.2.1 / (p.2.2 : ℚ)), p.2.2⟩ :=
      (Option.some_inj.mp hf).symm
    rw [this]

/-- C1: one aggregation cycle emits, for each route tag with at least one
valid observation, exactly one SpeedRecord whose vehicleCount is the number
of valid observations with that tag and whose speedKmh is their mean
rounded to one decimal place, half away from zero; tags with no valid
observation get no record. -/
theorem c1_aggregate_mean_and_count (nowMs : ℤ) (vs : List Vehicle) (r : String) :
    (0 < countTag (validPairs vs) r →
      (fetchCurrentSpeeds nowMs vs).filter (fun rec => rec.routeTag = r) =
        [⟨nowMs, r,
          round1AwayFromZero
            (sumTag (validPairs vs) r / (countTag (validPairs vs) r : ℚ)),
          countTag (validPairs vs) r⟩]) ∧
    (countTag (validPairs vs) r = 0 →
      (fetchCurrentSpeeds nowMs vs).filter (fun rec => rec.routeTag = r) = []) := by
  constructor
  · intro hpos
    have hne : countTag (validPairs vs) r ≠ 0 := by omega
    have hl : alookup (buildRouteData vs) r =
        some (sumTag (validPairs vs) r, countTag (validPairs vs) r) := by
      rw [alookup_buildRouteData, if_neg hne]
    rw [fetchCurrentSpeeds_filter_eq,
      filter_key_eq_single (buildRouteData vs) r _ (nodup_keys_buildRouteData vs) hl]
    have hcle : ¬ countTag (validPairs vs) r ≤ 0 := by omega
    rw [List.filterMap_cons]
    dsimp only
    rw [if_neg hcle]
    have hmean : 0 ≤ sumTag (validPairs vs) r / (countTag (validPairs vs) r : ℚ) := by
      apply div_nonneg
      · exact sumTag_nonneg _ r (fun p hp => (validPairs_props vs p hp).2)
      · exact_mod_cast Nat.zero_le _
    rw [List.filterMap_nil, toFixed1_eq_round1AwayFromZero _ hmean]
  · intro hzero
    have hnone : alookup (buildRouteData vs) r = none := by
      rw [alookup_buildRouteData, if_pos hzero]
    have hnotmem : r ∉ (buildRouteData vs).map Prod.fst :=
      (alookup_eq_none_iff _ r).mp hnone
    rw [fetchCurrentSpeeds_filter_eq, filter_key_eq_nil _ r hnotmem]
    rfl

theorem c1_witness :
    0 < countTag (validPairs [⟨some "7", some "8.9"⟩, ⟨some "7", some "9.1"⟩]) "7" ∧
    (fetchCurrentSpeeds 1000 [⟨some "7", some "8.9"⟩, ⟨some "7", some "9.1"⟩]).filter
        (fun rec => rec.routeTag = "7") =
      [⟨1000, "7",
        round1AwayFromZero
          (sumTag (validPairs [⟨some "7", some "8.9"⟩, ⟨some "7", some "9.1"⟩]) "7" /
            (countTag (validPairs [⟨some "7", some "8.9"⟩, ⟨some "7", some "9.1"⟩]) "7" : ℚ)),
        countTag (validPairs [⟨some "7", some "8.9"⟩, ⟨some "7", some "9.1"⟩]) "7"⟩] :=
  ⟨by decide,
   (c1_aggregate_mean_and_count 1000
     [⟨some "7", some "8.9"⟩, ⟨some "7", some "9.1"⟩] "7").1 (by decide)⟩

/-- C9: every batch from one aggregation call has only records with a
positive vehicle count, a non-empty route tag that occurs in exactly one
record of the batch, and the shared cycle timestamp. -/
theorem c9_batch_invariants (nowMs : ℤ) (vs : List Vehicle) :
    (∀ rec ∈ fetchCurrentSpeeds nowMs vs,
      1 ≤ rec.vehicleCount ∧ rec.routeTag ≠ "" ∧ rec.timestampMs = nowMs) ∧
    ((fetchCurrentSpeeds nowMs vs).map (fun rec => rec.routeTag)).Nodup := by
  constructor
  · intro rec hrec
    rcases List.mem_filterMap.mp hrec with ⟨p, hpmem, hf⟩
    by_cases hc : p.2.2 ≤ 0
    · rw [if_pos hc] at hf
      exact absurd hf (by simp)
    · rw [if_neg hc] at hf
      have hrec' : rec = ⟨nowMs, p.1, toFixed1 (p.2.1 / (p.2.2 : ℚ)), p.2.2⟩ :=
        (Option.some_inj.mp hf).symm
      subst hrec'
      refine ⟨show 1 ≤ p.2.2 by omega, ?_, rfl⟩
      have hkey : p.1 ∈ (buildRouteData vs).map Prod.fst :=
        List.mem_map.mpr ⟨p, hpmem, rfl⟩
      have hne : countTag (validPairs vs) p.1 ≠ 0 := by
        intro hz
        have : alookup (buildRouteData vs) p.1 = none := by
          rw [alookup_buildRouteData, if_pos hz]
        exact (alookup_eq_none_iff _ p.1).mp this hkey
      rcases exists_of_countTag_ne_zero _ p.1 hne with ⟨p', hp'mem, hp'⟩
      have := (validPairs_props vs p' hp'mem).1
      rw [hp'] at this
      exact this
  · unfold fetchCurrentSpeeds
    apply nodup_map_filterMap _ Prod.fst _ _ _ (nodup_keys_buildRouteData vs)
    intro p rec hf
    by_cases hc : p.2.2 ≤ 0
    · rw [if_pos hc] at hf
      exact absurd hf (by simp)
    · rw [if_neg hc] at hf
      rw [(Option.some_inj.mp hf).symm]

set_option maxRecDepth 10000 in
theorem c9_witness :
    (⟨5, "7", (5 : ℚ), 1⟩ : SpeedRecord) ∈
        fetchCurrentSpeeds 5 [⟨some "7", some "5"⟩] ∧
    (1 ≤ (⟨5, "7", (5 : ℚ), 1⟩ : SpeedRecord).vehicleCount ∧
      (⟨5, "7", (5 : ℚ), 1⟩ : SpeedRecord).routeTag ≠ "" ∧
      (⟨5, "7", (5 : ℚ), 1⟩ : SpeedRecord).timestampMs = 5) :=
  ⟨by with_unfolding_all decide,
   (c9_batch_invariants 5 [⟨some "7", some "5"⟩]).1 _
     (by with_unfolding_all decide)⟩

/-- C10: `asArray` keeps an array unchanged, collapses every falsy input
(including a single falsy element such as the empty string, 0 or false) to
the empty sequence, and wraps every other value in a one-element
sequence. -/
theorem c10_asArray_normalization (v : JSValue) :
    (jsFalsy v = true → asArray v = []) ∧
    (∀ xs, v = JSValue.arr xs → asArray v = xs) ∧
    (jsFalsy v = false → (∀ xs, v ≠ JSValue.arr xs) → asArray v = [v]) := by
  refine ⟨?_, ?_, ?_⟩
  · intro hf
    unfold asArray
    rw [if_pos hf]
  · intro xs hv
    subst hv
    rfl
  · intro hf hnarr
    unfold asArray
    rw [if_neg (by rw [hf]; simp)]
    cases v with
    | arr xs => exact absurd rfl (hnarr xs)
    | null => rfl
    | undef => rfl
    | bool b => rfl
    | num q => rfl
    | nan => rfl
    | str s => rfl
    | obj fields => rfl

theorem c10_witness :
    asArray (JSValue.str "") = [] ∧
    asArray (JSValue.num 0) = [] ∧
    asArray (JSValue.bool false) = [] ∧
    asArray (JSValue.arr [JSValue.null]) = [JSValue.null] ∧
    asArray (JSValue.str "x") = [JSValue.str "x"] :=
  ⟨(c10_asArray_normalization (JSValue.str "")).1 (by with_unfolding_all decide),
   (c10_asArray_normalization (JSValue.num 0)).1 (by with_unfolding_all decide),
   (c10_asArray_normalization (JSValue.bool false)).1 (by with_unfolding_all decide),
   (c10_asArray_normalization (JSValue.arr [JSValue.null])).2.1 [JSValue.null] rfl,
   (c10_asArray_normalization (JSValue.str "x")).2.2 (by with_unfolding_all decide)
     (fun xs h => JSValue.noConfusion h)⟩

/-- C4: parseSpeedKmh is invalid (`none`) exactly when the value is absent,
trims to the empty string, fails to parse to a finite number, or parses to
a negative number; any non-negative finite parse is returned as is, so 0 is
valid and no upper bound is applied. -/
theorem c4_parseSpeedKmh_validity (v : Option String) :
    (parseSpeedKmh v = none ↔
      v = none ∨
      (∃ s, v = some s ∧ (jsTrim s).length = 0) ∨
      (∃ s, v = some s ∧ (jsTrim s).length ≠ 0 ∧ jsNumber (jsTrim s) = none) ∨
      (∃ s n, v = some s ∧ jsNumber (jsTrim s) = some n ∧ n < 0)) ∧
    (∀ s n, v = some s → (jsTrim s).length ≠ 0 → jsNumber (jsTrim s) = some n →
      0 ≤ n → parseSpeedKmh v = some n) := by
  constructor
  · constructor
    · intro hnone
      cases v with
      | none => exact Or.inl rfl
      | some s =>
        by_cases h0 : (jsTrim s).length = 0
        · exact Or.inr (Or.inl ⟨s, rfl, h0⟩)
        · cases hj : jsNumber (jsTrim s) with
          | none => exact Or.inr (Or.inr (Or.inl ⟨s, rfl, h0, hj⟩))
          | some n =>
            by_cases hneg : n < 0
            · exact Or.inr (Or.inr (Or.inr ⟨s, n, rfl, hj, hneg⟩))
            · exfalso
              simp only [parseSpeedKmh] at hnone
              rw [if_neg h0, hj] at hnone
              dsimp only at hnone
              rw [if_neg hneg] at hnone
              exact Option.some_ne_none n hnone
    · intro hcase
      rcases hcase with hv | ⟨s, hv, h0⟩ | ⟨s, hv, h0, hj⟩ | ⟨s, n, hv, hj, hneg⟩
      · rw [hv]
        rfl
      · rw [hv]
        simp only [parseSpeedKmh]
        rw [if_pos h0]
      · rw [hv]
        simp only [parseSpeedKmh]
        rw [if_neg h0, hj]
      · rw [hv]
        simp only [parseSpeedKmh]
        by_cases h0 : (jsTrim s).length = 0
        · rw [if_pos h0]
        · rw [if_neg h0, hj]
          dsimp only
          rw [if_pos hneg]
  · intro s n hv h0 hj hge
    rw [hv]
    simp only [parseSpeedKmh]
    rw [if_neg h0, hj]
    dsimp only
    rw [if_neg (by exact fun hlt => absurd hge (not_le.mpr hlt))]

set_option maxRecDepth 10000 in
theorem c4_witness :
    parseSpeedKmh (some "0") = some 0 ∧
    parseSpeedKmh (some "999") = some 999 ∧
    parseSpeedKmh none = none ∧
    parseSpeedKmh (some "  ") = none ∧
    parseSpeedKmh (some "abc") = none ∧
    parseSpeedKmh (some "-1") = none :=
  ⟨(c4_parseSpeedKmh_validity (some "0")).2 "0" 0 rfl
     (by with_unfolding_all decide) (by with_unfolding_all decide)
     (by with_unfolding_all decide),
   (c4_parseSpeedKmh_validity (some "999")).2 "999" 999 rfl
     (by with_unfolding_all decide) (by with_unfolding_all decide)
     (by with_unfolding_all decide),
   (c4_parseSpeedKmh_validity none).1.mpr (Or.inl rfl),
   (c4_parseSpeedKmh_validity (some "  ")).1.mpr
     (Or.inr (Or.inl ⟨"  ", rfl, by with_unfolding_all decide⟩)),
   (c4_parseSpeedKmh_validity (some "abc")).1.mpr
     (Or.inr (Or.inr (Or.inl ⟨"abc", rfl, by with_unfolding_all decide,
       by with_unfolding_all decide⟩))),
   (c4_parseSpeedKmh_validity (some "-1")).1.mpr
     (Or.inr (Or.inr (Or.inr ⟨"-1", -1, rfl, by with_unfolding_all decide,
       by with_unfolding_all decide⟩)))⟩

/-! ## Route title cache (`getRouteTitlesByTag`, `saveRoutes`) -/

/-- The routes lookup: an insertion-ordered association list from route
tag to route title (the JavaScript object `titlesByRouteTag`). -/
def Lookup := List (String × String)

/-- Lookup in a routes association list. -/
def lkey : List (String × String) → String → Option String
  | [], _ => none
  | p :: rest, k => if p.1 = k then some p.2 else lkey rest k

/-- JavaScript object assignment `m[k] = v`: overwrite the existing key or
append a new one at the end. -/
def setKey (m : List (String × String)) (k v : String) :
    List (String × String) :=
  if m.any (fun p => p.1 = k) then
    m.map (fun p => if p.1 = k then (p.1, v) else p)
  else m ++ [(k, v)]

/-- One `<route>` element of the routeList feed, reduced to its tag and
title attributes (`none` = attribute absent). -/
structure RouteXml where
  tag : Option String
  title : Option String

/-- Embeds the title-collection loop (cache-speeds.ts:74-80): skip routes
whose tag or title is not a non-empty string, otherwise assign
`titlesByRouteTag[tag] = title`. -/
def buildTitles (routes : List RouteXml) : List (String × String) :=
  routes.foldl
    (fun m route =>
      match route.tag, route.title with
      | some t, some ti =>
        if t.length = 0 then m
        else if ti.length = 0 then m
        else setKey m t ti
      | _, _ => m)
    []

/-- The result of the routeList fetch attempt inside one
`getRouteTitlesByTag` call: a non-success HTTP status, a thrown error, or
a parsed list of route elements.  Both failure constructors take the same
`catch`-style fallback path in the source. -/
inductive FetchOutcome where
  | httpError
  | thrown
  | ok (routes : List RouteXml)

/-- The mutable module state of cache-speeds.ts: the in-memory
`routeTitlesCache` (fetch time and lookup) and the persisted contents of
`routes.json` written by `saveRoutes`. -/
structure CacheSt where
  routeTitlesCache : Option (ℤ × List (String × String))
  persistedRoutes : List (String × String)

/-- The lookup a failed fetch returns:
`routeTitlesCache?.titlesByRouteTag ?? {}`. -/
def lastLookup (st : CacheSt) : List (String × String) :=
  (st.routeTitlesCache.map Prod.snd).getD []

/-- The TTL constant `ROUTE_TITLES_TTL_MS` (one hour). -/
def ROUTE_TITLES_TTL_MS : ℤ := 60 * 60 * 1000

/-- Embeds one call of `getRouteTitlesByTag` (cache-speeds.ts:53-92) as a
state transformer.  Returns the lookup handed to the caller, the state
after the call, and whether a network fetch was issued.  The fetch itself
is an input (`oc`): on a fresh cache no fetch happens and the cached
lookup is returned; on failure the last cached lookup (or `{}`) is
returned and nothing changes; on success the cache is refreshed with the
call's `now` and `saveRoutes` overwrites `routes.json` with the new
lookup. -/
def getRouteTitlesByTag (st : CacheSt) (now : ℤ) (oc : FetchOutcome) :
    List (String × String) × CacheSt × Bool :=
  match st.routeTitlesCache with
  | some (t, m) =>
    if now - t < ROUTE_TITLES_TTL_MS then (m, st, false)
    else
      match oc with
      | .httpError => (lastLookup st, st, true)
      | .thrown => (lastLookup st, st, true)
      | .ok routes =>
        let titles := buildTitles routes
        (titles, ⟨some (now, titles), titles⟩, true)
  | none =>
    match oc with
    | .httpError => (lastLookup st, st, true)
    | .thrown => (lastLookup st, st, true)
    | .ok routes =>
      let titles := buildTitles routes
      (titles, ⟨some (now, titles), titles⟩, true)

/-- Whether the in-memory route title cache is stale at `now` (the negation
of the guard at cache-speeds.ts:55). -/
def staleAt (st : CacheSt) (now : ℤ) : Prop :=
  match st.routeTitlesCache with
  | none => True
  | some (t, _) => ROUTE_TITLES_TTL_MS ≤ now - t

/-- C5: within the TTL after a successful fetch the cache serves lookups
with no further network fetch (so any two such calls issue at most one
fetch in total); a call at or past TTL expiry fetches exactly once; and a
failed fetch returns the previously cached mapping and leaves the state
unchanged. -/
theorem c5_route_title_cache (st : CacheSt) (now now₂ : ℤ) (oc oc₂ : FetchOutcome)
    (t : ℤ) (m : List (String × String)) (routes : List RouteXml) :
    (st.routeTitlesCache = some (t, m) → t ≤ now → now ≤ now₂ →
      now₂ - t < ROUTE_TITLES_TTL_MS →
      getRouteTitlesByTag st now oc = (m, st, false) ∧
      getRouteTitlesByTag st now₂ oc₂ = (m, st, false)) ∧
    (staleAt st now → oc = .ok routes → now₂ - now < ROUTE_TITLES_TTL_MS →
      ((getRouteTitlesByTag st now oc).2.2 = true ∧
        (getRouteTitlesByTag ((getRouteTitlesByTag st now oc).2.1) now₂ oc₂).2.2 =
          false)) ∧
    (staleAt st now → (getRouteTitlesByTag st now oc).2.2 = true) ∧
    ((oc = .httpError ∨ oc = .thrown) →
      getRouteTitlesByTag st now oc = (lastLookup st, st, false) ∨
      getRouteTitlesByTag st now oc = (lastLookup st, st, true)) := by
  refine ⟨?_, ?_, ?_, ?_⟩
  · intro hc ht hle hfresh
    have hf1 : now - t < ROUTE_TITLES_TTL_MS := by omega
    constructor
    · unfold getRouteTitlesByTag
      rw [hc]
      dsimp only
      rw [if_pos hf1]
    · unfold getRouteTitlesByTag
      rw [hc]
      dsimp only
      rw [if_pos (by omega : now₂ - t < ROUTE_TITLES_TTL_MS)]
  · intro hstale hoc hfresh₂
    subst hoc
    unfold staleAt at hstale
    unfold getRouteTitlesByTag
    cases hc : st.routeTitlesCache with
    | none =>
      dsimp only
      refine ⟨rfl, ?_⟩
      rw [if_pos hfresh₂]
    | some tm =>
      cases tm with
      | mk t₀ m₀ =>
        rw [hc] at hstale
        dsimp only
        rw [if_neg (by omega : ¬ now - t₀ < ROUTE_TITLES_TTL_MS)]
        dsimp only
        refine ⟨rfl, ?_⟩
        rw [if_pos hfresh₂]
  · intro hstale
    unfold staleAt at hstale
    unfold getRouteTitlesByTag
    cases hc : st.routeTitlesCache with
    | none =>
      cases oc <;> rfl
    | some tm =>
      cases tm with
      | mk t₀ m₀ =>
        rw [hc] at hstale
        dsimp only
        rw [if_neg (by omega : ¬ now - t₀ < ROUTE_TITLES_TTL_MS)]
        cases oc <;> rfl
  · intro hoc
    unfold getRouteTitlesByTag
    cases hc : st.routeTitlesCache with
    | none =>
      rcases hoc with h | h <;> subst h <;> exact Or.inr rfl
    | some tm =>
      cases tm with
      | mk t₀ m₀ =>
        dsimp only
        by_cases hfresh : now - t₀ < ROUTE_TITLES_TTL_MS
        · rw [if_pos hfresh]
          left
          have : lastLookup st = m₀ := by
            unfold lastLookup
            rw [hc]
            rfl
          rw [this]
        · rw [if_neg hfresh]
          rcases hoc with h | h <;> subst h <;> exact Or.inr rfl

theorem c5_witness :
    getRouteTitlesByTag ⟨some (0, [("7", "7-Bathurst")]), [("7", "7-Bathurst")]⟩
        1000 FetchOutcome.httpError =
      ([("7", "7-Bathurst")], ⟨some (0, [("7", "7-Bathurst")]), [("7", "7-Bathurst")]⟩,
        false) ∧
    (getRouteTitlesByTag ⟨some (0, [("7", "7-Bathurst")]), [("7", "7-Bathurst")]⟩
        3600000 FetchOutcome.httpError).2.2 = true :=
  ⟨((c5_route_title_cache ⟨some (0, [("7", "7-Bathurst")]), [("7", "7-Bathurst")]⟩
      1000 1000 FetchOutcome.httpError FetchOutcome.httpError 0 [("7", "7-Bathurst")]
      []).1 rfl (by decide) (by decide) (by decide)).1,
   (c5_route_title_cache ⟨some (0, [("7", "7-Bathurst")]), [("7", "7-Bathurst")]⟩
      3600000 3600000 FetchOutcome.httpError FetchOutcome.httpError 0
      [("7", "7-Bathurst")] []).2.2.1 (by unfold staleAt; dsimp only; decide)⟩

theorem c6_counterexample :
    lkey (CacheSt.persistedRoutes ⟨none, [("7", "7-Bathurst")]⟩) "7" =
      some "7-Bathurst" ∧
    (getRouteTitlesByTag ⟨none, [("7", "7-Bathurst")]⟩ 0
        (FetchOutcome.ok [⟨some "8", some "8-Broadview"⟩])).2.2 = true ∧
    lkey ((getRouteTitlesByTag ⟨none, [("7", "7-Bathurst")]⟩ 0
        (FetchOutcome.ok [⟨some "8", some "8-Broadview"⟩])).2.1.persistedRoutes)
      "7" = none := by
  decide

/-- C6 (amended): a successful route-title refresh persists the newly
fetched lookup wholesale, replacing the previous `routes.json`: within one
fetch later entries for the same tag overwrite earlier ones, but keys of
the previously persisted lookup that are absent from the new fetch are
dropped rather than merged. -/
theorem c6_saveRoutes_replaces (st : CacheSt) (now : ℤ) (routes : List RouteXml)
    (h : staleAt st now) :
    (getRouteTitlesByTag st now (.ok routes)).2.1.persistedRoutes =
      buildTitles routes := by
  unfold staleAt at h
  unfold getRouteTitlesByTag
  cases hc : st.routeTitlesCache with
  | none => rfl
  | some tm =>
    cases tm with
    | mk t₀ m₀ =>
      rw [hc] at h
      dsimp only
      rw [if_neg (by omega : ¬ now - t₀ < ROUTE_TITLES_TTL_MS)]

theorem c6_witness :
    (getRouteTitlesByTag ⟨none, [("7", "7-Bathurst")]⟩ 0
        (FetchOutcome.ok [⟨some "8", some "8-Broadview"⟩])).2.1.persistedRoutes =
      buildTitles [⟨some "8", some "8-Broadview"⟩] :=
  c6_saveRoutes_replaces ⟨none, [("7", "7-Bathurst")]⟩ 0
    [⟨some "8", some "8-Broadview"⟩] trivial

/-! ## Partitioned store (`collectSample` daily append) -/

/-- Embeds the daily-partition write path of `collectSample`
(cache-speeds.ts:192-207): a cycle with no records writes nothing;
otherwise the existing partition is loaded, the new records are pushed
onto it, and the whole merged sequence is written back.  The value is the
partition's contents after the call (what a subsequent `loadCache`
returns). -/
def collectSampleStore (existing newRecords : List SpeedRecord) :
    List SpeedRecord :=
  if newRecords.isEmpty then existing
  else existing ++ newRecords

/-- C7: one append writes back exactly the concatenation of the existing
contents and the new batch, so appending two batches to the same daily
partition loads back the union of both batches as multisets, independent
of the order of the two appends. -/
theorem c7_append_is_concat (E A B : List SpeedRecord) :
    collectSampleStore E A = E ++ A ∧
    (collectSampleStore (collectSampleStore E A) B).Perm
      (collectSampleStore (collectSampleStore E B) A) ∧
    (collectSampleStore (collectSampleStore [] A) B).Perm (A ++ B) := by
  have hconcat : ∀ (X Y : List SpeedRecord), collectSampleStore X Y = X ++ Y := by
    intro X Y
    unfold collectSampleStore
    by_cases hY : Y.isEmpty
    · rw [if_pos hY, List.isEmpty_iff.mp hY, List.append_nil]
    · rw [if_neg hY]
  refine ⟨hconcat E A, ?_, ?_⟩
  · rw [hconcat, hconcat, hconcat, hconcat, List.append_assoc, List.append_assoc]
    exact List.Perm.append_left E List.perm_append_comm
  · rw [hconcat, hconcat, List.nil_append]

/-! ## Inbound trigger authorization (the Vercel `handler`) -/

/-- The environment variables the handler's authorization gate reads
(`none` models an unset variable). -/
structure HandlerEnv where
  cronSecret : Option String
  qstashCurrentKey : Option String

/-- The request headers the authorization gate reads. -/
structure HandlerReq where
  upstashSignature : Option String
  authorization : Option String

/-- JavaScript truthiness of a string-or-undefined header or environment
variable: present and non-empty. -/
def oTruthy : Option String → Bool
  | none => false
  | some s => !(s = "")

/-- The `upstashSignature && hasSigningKeys` guard of the handler
(part_001:155): the signature branch is taken exactly when the signature
header and the current signing key are both truthy. -/
def usesSignaturePath (env : HandlerEnv) (req : HandlerReq) : Bool :=
  oTruthy req.upstashSignature && oTruthy env.qstashCurrentKey

/-- The shared-secret fallback (part_001:175): `cronSecret` must be truthy
and the authorization header strictly equal to the bearer string. -/
def bearerAuthorized (env : HandlerEnv) (req : HandlerReq) : Bool :=
  match env.cronSecret with
  | none => false
  | some s =>
    if s = "" then false
    else req.authorization = some ("Bearer " ++ s)

/-- The handler's authorization decision (part_001:151-180): when the
signature branch is selected, only the verification outcome counts (the
bearer token is never consulted); otherwise the bearer fallback decides.
`sigValid` is the outcome `receiver.verify` would produce for this
request. -/
def authorized (env : HandlerEnv) (req : HandlerReq) (sigValid : Bool) : Bool :=
  if usesSignaturePath env req then sigValid else bearerAuthorized env req

/-- The observable outcome of one handler invocation: HTTP status plus the
speed-record and route-lookup partitions actually written to blob
storage. -/
structure HandlerResult where
  status : ℕ
  speedPartitionsWritten : List (String × List SpeedRecord)
  routePartitionsWritten : List (String × List (String × String))

/-- Embeds the `handler` of the Vercel endpoint (part_001:150-249) at its
observable interface.  The external effects are inputs: `sigValid` is the
signature-verification outcome, `records` the `fetchCurrentSpeeds` result,
`speedsUploadOk` whether the speeds `put` succeeds, `routesListOk` whether
the `list` call succeeds, `routesExist` whether a routes partition for the
date already exists, `routesFetched` the lookup a routeList fetch returns,
and `routesUploadOk` whether the routes `put` succeeds.  A failed `put`
throws inside its helper, which returns `null`, so nothing is written. -/
def handler (env : HandlerEnv) (req : HandlerReq) (sigValid : Bool)
    (dateStr timeStr : String) (records : List SpeedRecord)
    (speedsUploadOk routesListOk routesExist : Bool)
    (routesFetched : List (String × String)) (routesUploadOk : Bool) :
    HandlerResult :=
  if authorized env req sigValid = false then ⟨401, [], []⟩
  else if records.isEmpty then ⟨200, [], []⟩
  else if speedsUploadOk = false then ⟨500, [], []⟩
  else
    ⟨200,
     [("speed-data-" ++ dateStr ++ "-" ++ timeStr ++ ".msgpack", records)],
     if routesListOk && !routesExist && !routesFetched.isEmpty && routesUploadOk
     then [("routes-" ++ dateStr ++ ".json", routesFetched)]
     else []⟩

theorem c8_counterexample :
    bearerAuthorized ⟨some "s", some "k"⟩ ⟨some "bad", some "Bearer s"⟩ = true ∧
    (handler ⟨some "s", some "k"⟩ ⟨some "bad", some "Bearer s"⟩ false
        "2026-01-21" "0900" [⟨0, "7", 0, 1⟩] true true false [] true).status =
      401 := by
  constructor
  · with_unfolding_all decide
  · with_unfolding_all decide

/-- C8 (amended): a request whose credentials are invalid on both paths is
rejected with status 401 and no partition write; conversely a request is
not rejected as unauthorized when it is valid under the mechanism the
handler selects — the signature mechanism whenever a signature header and
signing keys are both present (an invalid signature is then rejected even
if a valid bearer token is also supplied), the bearer mechanism
otherwise. -/
theorem c8_auth_gate (env : HandlerEnv) (req : HandlerReq) (sigValid : Bool)
    (dateStr timeStr : String) (records : List SpeedRecord)
    (speedsUploadOk routesListOk routesExist : Bool)
    (routesFetched : List (String × String)) (routesUploadOk : Bool) :
    (¬ (oTruthy req.upstashSignature = true ∧ oTruthy env.qstashCurrentKey = true ∧
          sigValid = true) →
      bearerAuthorized env req = false →
      handler env req sigValid dateStr timeStr records speedsUploadOk
          routesListOk routesExist routesFetched routesUploadOk =
        ⟨401, [], []⟩) ∧
    (usesSignaturePath env req = true → sigValid = true →
      (handler env req sigValid dateStr timeStr records speedsUploadOk
          routesListOk routesExist routesFetched routesUploadOk).status ≠ 401) ∧
    (usesSignaturePath env req = false → bearerAuthorized env req = true →
      (handler env req sigValid dateStr timeStr records speedsUploadOk
          routesListOk routesExist routesFetched routesUploadOk).status ≠ 401) := by
  have hstatus : authorized env req sigValid = true →
      (handler env req sigValid dateStr timeStr records speedsUploadOk
          routesListOk routesExist routesFetched routesUploadOk).status ≠ 401 := by
    intro hauth
    unfold handler
    rw [hauth, if_neg (by simp : ¬ (true = false))]
    by_cases hrec : records.isEmpty = true
    · rw [if_pos hrec]
      exact fun hh => by simp at hh
    · rw [if_neg hrec]
      by_cases hup : speedsUploadOk = false
      · rw [if_pos hup]
        exact fun hh => by simp at hh
      · rw [if_neg hup]
        exact fun hh => by simp at hh
  refine ⟨?_, ?_, ?_⟩
  · intro hsig hbearer
    have hauth : authorized env req sigValid = false := by
      unfold authorized
      by_cases hpath : usesSignaturePath env req = true
      · rw [if_pos hpath]
        unfold usesSignaturePath at hpath
        rcases Bool.and_eq_true_iff.mp hpath with ⟨h1, h2⟩
        cases hsv : sigValid with
        | false => rfl
        | true => exact absurd ⟨h1, h2, hsv⟩ hsig
      · rw [if_neg hpath]
        exact hbearer
    unfold handler
    rw [hauth, if_pos rfl]
  · intro hpath hsv
    apply hstatus
    unfold authorized
    rw [if_pos hpath]
    exact hsv
  · intro hpath hbearer
    apply hstatus
    unfold authorized
    rw [hpath]
    simpa using hbearer

theorem c8_witness :
    handler ⟨some "s", none⟩ ⟨none, some "Bearer wrong"⟩ false "2026-01-21"
        "0900" [⟨0, "7", 0, 1⟩] true true false [] true = ⟨401, [], []⟩ ∧
    (handler ⟨some "s", none⟩ ⟨none, some "Bearer s"⟩ false "2026-01-21"
        "0900" [⟨0, "7", 0, 1⟩] true true false [] true).status ≠ 401 :=
  ⟨(c8_auth_gate ⟨some "s", none⟩ ⟨none, some "Bearer wrong"⟩ false "2026-01-21"
      "0900" [⟨0, "7", 0, 1⟩] true true false [] true).1
      (by intro hh; exact absurd hh.2.1 (by with_unfolding_all decide))
      (by with_unfolding_all decide),
   (c8_auth_gate ⟨some "s", none⟩ ⟨none, some "Bearer s"⟩ false "2026-01-21"
      "0900" [⟨0, "7", 0, 1⟩] true true false [] true).2.2
      (by with_unfolding_all decide) (by with_unfolding_all decide)⟩

/-! ## The record codec (`packr.pack` / `packr.unpack`)

`saveCache`/`uploadSpeedsToBlob` serialize a `SpeedRecord[]` with msgpackr
and `loadCache` deserializes it.  The wire format is standard MessagePack:
an array of 4-element arrays.  We model the byte stream as a `List ℕ` of
byte values and a JavaScript number at the codec boundary by how msgpackr
puts it on the wire: an integer in `[0, 2^32)` uses the smallest unsigned
integer format, any other finite number (fractional speeds, and the
millisecond timestamps, which exceed 2^32) is written as IEEE-754 float64
— marker `0xcb` plus the double's eight bytes.  Serialization moves those
64 bits verbatim in both directions, so a float64 is modelled by its bit
pattern.  The records this program writes carry no negative numbers, so
the negative-integer formats never occur and are omitted. -/

/-- Big-endian byte encoding of `n` into exactly `k` bytes. -/
def beBytes : ℕ → ℕ → List ℕ
  | 0, _ => []
  | k + 1, n => n / 256 ^ k :: beBytes k (n % 256 ^ k)

/-- Big-endian read of exactly `k` bytes; `none` on a truncated stream. -/
def readBE : ℕ → List ℕ → Option (ℕ × List ℕ)
  | 0, bs => some (0, bs)
  | _ + 1, [] => none
  | k + 1, b :: bs => (readBE k bs).map (fun p => (b * 256 ^ k + p.1, p.2))

/-- Splits off exactly `k` bytes; `none` on a truncated stream. -/
def splitTake : ℕ → List ℕ → Option (List ℕ × List ℕ)
  | 0, bs => some ([], bs)
  | _ + 1, [] => none
  | k + 1, b :: bs => (splitTake k bs).map (fun p => (b :: p.1, p.2))

/-- UTF-8 encoding of one Unicode code point (what the JavaScript string
encoder emits per character). -/
def utf8EncodeChar (n : ℕ) : List ℕ :=
  if n < 0x80 then [n]
  else if n < 0x800 then [0xc0 + n / 64, 0x80 + n % 64]
  else if n < 0x10000 then
    [0xe0 + n / 4096, 0x80 + n / 64 % 64, 0x80 + n % 64]
  else
    [0xf0 + n / 262144, 0x80 + n / 4096 % 64, 0x80 + n / 64 % 64,
      0x80 + n % 64]

/-- UTF-8 decoding of one code point from the front of a byte stream. -/
def utf8DecodeChar : List ℕ → Option (ℕ × List ℕ)
  | [] => none
  | b :: bs =>
    if b < 0x80 then some (b, bs)
    else if b < 0xc0 then none
    else if b < 0xe0 then
      match bs with
      | b1 :: bs1 =>
        if 0x80 ≤ b1 ∧ b1 < 0xc0 then
          some ((b - 0xc0) * 64 + (b1 - 0x80), bs1)
        else none
      | [] => none
    else if b < 0xf0 then
      match bs with
      | b1 :: b2 :: bs2 =>
        if (0x80 ≤ b1 ∧ b1 < 0xc0) ∧ (0x80 ≤ b2 ∧ b2 < 0xc0) then
          some ((b - 0xe0) * 4096 + (b1 - 0x80) * 64 + (b2 - 0x80), bs2)
        else none
      | _ => none
    else if b < 0xf8 then
      match bs with
      | b1 :: b2 :: b3 :: bs3 =>
        if (0x80 ≤ b1 ∧ b1 < 0xc0) ∧ (0x80 ≤ b2 ∧ b2 < 0xc0) ∧
            (0x80 ≤ b3 ∧ b3 < 0xc0) then
          some ((b - 0xf0) * 262144 + (b1 - 0x80) * 4096 + (b2 - 0x80) * 64 +
            (b3 - 0x80), bs3)
        else none
      | _ => none
    else none

/-- UTF-8 encoding of a character sequence. -/
def utf8EncodeList : List Char → List ℕ
  | [] => []
  | c :: cs => utf8EncodeChar c.toNat ++ utf8EncodeList cs

/-- Fuel-bounded UTF-8 decoding of a whole byte chunk (each step consumes
at least one byte, so fuel equal to the chunk length suffices). -/
def utf8DecodeAll : ℕ → List ℕ → Option (List Char)
  | _, [] => some []
  | 0, _ :: _ => none
  | fuel + 1, b :: bs =>
    match utf8DecodeChar (b :: bs) with
    | none => none
    | some (n, rest) =>
      (utf8DecodeAll fuel rest).map (fun cs => Char.ofNat n :: cs)

/-- A JavaScript number as msgpackr serializes it: an unsigned integer
below `2^32` (packed into the smallest unsigned format) or any other
finite double, identified by its 64-bit IEEE-754 pattern (packed as
float64). -/
inductive JsNum where
  | u (n : ℕ)
  | f64 (bits : ℕ)
deriving DecidableEq, Repr

/-- Packs one number (the number branch of msgpackr's pack). -/
def encNum : JsNum → List ℕ
  | .u n =>
    if n < 0x80 then [n]
    else if n < 0x100 then 0xcc :: beBytes 1 n
    else if n < 0x10000 then 0xcd :: beBytes 2 n
    else 0xce :: beBytes 4 n
  | .f64 bits => 0xcb :: beBytes 8 bits

/-- Reads one number back (positive fixint, uint8/16/32 or float64). -/
def decNum : List ℕ → Option (JsNum × List ℕ)
  | [] => none
  | b :: bs =>
    if b < 0x80 then some (.u b, bs)
    else if b = 0xcc then (readBE 1 bs).map (fun p => (.u p.1, p.2))
    else if b = 0xcd then (readBE 2 bs).map (fun p => (.u p.1, p.2))
    else if b = 0xce then (readBE 4 bs).map (fun p => (.u p.1, p.2))
    else if b = 0xcb then (readBE 8 bs).map (fun p => (.f64 p.1, p.2))
    else none

/-- Packs one string: UTF-8 bytes framed by the smallest of
fixstr/str8/str16/str32. -/
def encStr (s : String) : List ℕ :=
  let b := utf8EncodeList s.data
  if b.length < 0x20 then (0xa0 + b.length) :: b
  else if b.length < 0x100 then 0xd9 :: beBytes 1 b.length ++ b
  else if b.length < 0x10000 then 0xda :: beBytes 2 b.length ++ b
  else 0xdb :: beBytes 4 b.length ++ b

/-- Reads back a string body of `len` UTF-8 bytes. -/
def decStrBody (len : ℕ) (bs : List ℕ) : Option (String × List ℕ) :=
  match splitTake len bs with
  | none => none
  | some (chunk, rest) =>
    match utf8DecodeAll chunk.length chunk with
    | none => none
    | some cs => some (⟨cs⟩, rest)

/-- Reads one string back (fixstr or str8/16/32). -/
def decStr : List ℕ → Option (String × List ℕ)
  | [] => none
  | b :: bs =>
    if 0xa0 ≤ b ∧ b < 0xc0 then decStrBody (b - 0xa0) bs
    else if b = 0xd9 then
      match readBE 1 bs with
      | none => none
      | some (len, bs1) => decStrBody len bs1
    else if b = 0xda then
      match readBE 2 bs with
      | none => none
      | some (len, bs1) => decStrBody len bs1
    else if b = 0xdb then
      match readBE 4 bs with
      | none => none
      | some (len, bs1) => decStrBody len bs1
    else none

/-- A SpeedRecord as the codec sees it: the positional 4-tuple with its
numeric fields in msgpackr's number representation. -/
structure WireRecord where
  timestampMs : JsNum
  routeTag : String
  speedKmh : JsNum
  vehicleCount : JsNum
deriving DecidableEq, Repr

/-- A number representation that can actually occur on the wire. -/
def wfNum : JsNum → Prop
  | .u n => n < 2 ^ 32
  | .f64 bits => bits < 2 ^ 64

/-- Well-formedness of one record: number fields in range and a route tag
whose UTF-8 encoding fits the str32 frame. -/
def wfRecord (r : WireRecord) : Prop :=
  wfNum r.timestampMs ∧ (utf8EncodeList r.routeTag.data).length < 2 ^ 32 ∧
    wfNum r.speedKmh ∧ wfNum r.vehicleCount

/-- Well-formedness of a record sequence (the array length must fit the
array32 frame). -/
def wfRecordList (rs : List WireRecord) : Prop :=
  rs.length < 2 ^ 32 ∧ ∀ r ∈ rs, wfRecord r

/-- Packs one record: fixarray(4) of timestamp, tag, speed, count. -/
def encRecord (r : WireRecord) : List ℕ :=
  0x94 :: (encNum r.timestampMs ++ encStr r.routeTag ++ encNum r.speedKmh ++
    encNum r.vehicleCount)

/-- Reads one record back. -/
def decRecord : List ℕ → Option (WireRecord × List ℕ)
  | [] => none
  | b :: bs =>
    if b = 0x94 then
      match decNum bs with
      | none => none
      | some (ts, bs1) =>
        match decStr bs1 with
        | none => none
        | some (tag, bs2) =>
          match decNum bs2 with
          | none => none
          | some (sp, bs3) =>
            match decNum bs3 with
            | none => none
            | some (vc, bs4) => some (⟨ts, tag, sp, vc⟩, bs4)
    else none

/-- The concatenated element encodings of a record sequence. -/
def encRecordList : List WireRecord → List ℕ
  | [] => []
  | r :: rs => encRecord r ++ encRecordList rs

/-- Embeds `packr.pack(records)` as used by `saveCache`
(cache-speeds.ts:182-190) and `uploadSpeedsToBlob` (part_001:135-148):
array header (fixarray/array16/array32) followed by the element
encodings. -/
def packRecords (rs : List WireRecord) : List ℕ :=
  (if rs.length < 0x10 then [0x90 + rs.length]
   else if rs.length < 0x10000 then 0xdc :: beBytes 2 rs.length
   else 0xdd :: beBytes 4 rs.length) ++ encRecordList rs

/-- Reads exactly `k` records back. -/
def decRecordsN : ℕ → List ℕ → Option (List WireRecord × List ℕ)
  | 0, bs => some ([], bs)
  | k + 1, bs =>
    match decRecord bs with
    | none => none
    | some (r, bs1) => (decRecordsN k bs1).map (fun p => (r :: p.1, p.2))

/-- Embeds `packr.unpack(buffer) as SpeedRecord[]` as used by `loadCache`
(cache-speeds.ts:169-180): decode the top-level array and its elements at
the record shape; an empty buffer, an unknown marker, a truncated stream
or trailing garbage is a decode error (msgpackr throws), modelled as
`none`. -/
def unpackRecords (bs : List ℕ) : Option (List WireRecord) :=
  match bs with
  | [] => none
  | b :: bs1 =>
    let header : Option (ℕ × List ℕ) :=
      if 0x90 ≤ b ∧ b < 0xa0 then some (b - 0x90, bs1)
      else if b = 0xdc then readBE 2 bs1
      else if b = 0xdd then readBE 4 bs1
      else none
    match header with
    | none => none
    | some (n, bs2) =>
      match decRecordsN n bs2 with
      | none => none
      | some (rs, rest) => if rest = [] then some rs else none

/-- Embeds `loadCache` (cache-speeds.ts:169-180) as a function of the
partition file's state: a missing file yields the empty sequence, and the
`try`/`catch` turns any decode error into the empty sequence as well
("Error loading cache, starting fresh"). -/
def loadCache (file : Option (List ℕ)) : List WireRecord :=
  match file with
  | none => []
  | some bytes => (unpackRecords bytes).getD []

theorem readBE_beBytes (k : ℕ) (n : ℕ) (rest : List ℕ) (h : n < 256 ^ k) :
    readBE k (beBytes k n ++ rest) = some (n, rest) := by
  induction k generalizing n with
  | zero =>
    have : n = 0 := by simpa using h
    subst this
    rfl
  | succ k ih =>
    have hmod : n % 256 ^ k < 256 ^ k :=
      Nat.mod_lt _ (Nat.pos_pow_of_pos k (by omega))
    show (readBE k (beBytes k (n % 256 ^ k) ++ rest)).map
        (fun p => (n / 256 ^ k * 256 ^ k + p.1, p.2)) = some (n, rest)
    rw [ih _ hmod, Option.map_some']
    rw [Option.some_inj, Prod.mk.injEq]
    refine ⟨?_, rfl⟩
    rw [Nat.mul_comm (n / 256 ^ k) (256 ^ k), Nat.div_add_mod]

theorem splitTake_append (l rest : List ℕ) :
    splitTake l.length (l ++ rest) = some (l, rest) := by
  induction l with
  | nil => rfl
  | cons b l ih => simp [splitTake, ih]

theorem utf8DecodeChar_encodeChar (n : ℕ) (h : n < 0x110000)
    (rest : List ℕ) :
    utf8DecodeChar (utf8EncodeChar n ++ rest) = some (n, rest) := by
  unfold utf8EncodeChar
  by_cases h1 : n < 0x80
  · rw [if_pos h1]
    simp only [List.cons_append, List.nil_append, utf8DecodeChar]
    rw [if_pos h1]
  · rw [if_neg h1]
    by_cases h2 : n < 0x800
    · rw [if_pos h2]
      simp only [List.cons_append, List.nil_append, utf8DecodeChar]
      rw [if_neg (by omega), if_neg (by omega), if_pos (by omega),
        if_pos (by omega)]
      rw [Option.some_inj, Prod.mk.injEq]
      exact ⟨by omega, rfl⟩
    · rw [if_neg h2]
      by_cases h3 : n < 0x10000
      · rw [if_pos h3]
        simp only [List.cons_append, List.nil_append, utf8DecodeChar]
        rw [if_neg (by omega), if_neg (by omega), if_neg (by omega),
          if_pos (by omega), if_pos (by omega)]
        rw [Option.some_inj, Prod.mk.injEq]
        exact ⟨by omega, rfl⟩
      · rw [if_neg h3]
        simp only [List.cons_append, List.nil_append, utf8DecodeChar]
        rw [if_neg (by omega), if_neg (by omega), if_neg (by omega),
          if_neg (by omega), if_pos (by omega), if_pos (by omega)]
        rw [Option.some_inj, Prod.mk.injEq]
        exact ⟨by omega, rfl⟩

theorem utf8EncodeChar_ne_nil (n : ℕ) : utf8EncodeChar n ≠ [] := by
  unfold utf8EncodeChar
  split
  · simp
  · split
    · simp
    · split
      · simp
      · simp

theorem char_toNat_lt (c : Char) : c.toNat < 0x110000 := by
  have h0 : c.toNat = c.val.toNat := rfl
  rcases c.valid with h | ⟨h1, h2⟩
  · have := UInt32.toNat_lt_of_lt (n := c.val) (m := 0xd800) (by decide) h
    omega
  · have := UInt32.toNat_lt_of_lt (n := c.val) (m := 0x110000) (by decide) h2
    omega

theorem utf8DecodeAll_cons (fuel : ℕ) (b : ℕ) (bs : List ℕ) :
    utf8DecodeAll (fuel + 1) (b :: bs) =
      match utf8DecodeChar (b :: bs) with
      | none => none
      | some (n, rest) =>
        (utf8DecodeAll fuel rest).map (fun cs => Char.ofNat n :: cs) := rfl

theorem utf8DecodeAll_encodeList (cs : List Char) (fuel : ℕ)
    (h : (utf8EncodeList cs).length ≤ fuel) :
    utf8DecodeAll fuel (utf8EncodeList cs) = some cs := by
  induction cs generalizing fuel with
  | nil => cases fuel <;> rfl
  | cons c cs ih =>
    have hb : ∃ b bs, utf8EncodeList (c :: cs) = b :: bs := by
      show ∃ b bs, utf8EncodeChar c.toNat ++ utf8EncodeList cs = b :: bs
      cases hh : utf8EncodeChar c.toNat with
      | nil => exact absurd hh (utf8EncodeChar_ne_nil _)
      | cons b bs => exact ⟨b, bs ++ utf8EncodeList cs, by simp⟩
    rcases hb with ⟨b, bs, hb⟩
    cases fuel with
    | zero =>
      exfalso
      rw [hb] at h
      simp at h
    | succ fuel =>
      rw [hb, utf8DecodeAll_cons, ← hb]
      have hdec : utf8DecodeChar (utf8EncodeList (c :: cs)) =
          some (c.toNat, utf8EncodeList cs) :=
        utf8DecodeChar_encodeChar c.toNat (char_toNat_lt c) (utf8EncodeList cs)
      rw [hdec]
      have hfuel : (utf8EncodeList cs).length ≤ fuel := by
        have h1 : (utf8EncodeChar c.toNat).length ≠ 0 := by
          intro hz
          exact utf8EncodeChar_ne_nil c.toNat (List.eq_nil_of_length_eq_zero hz)
        have h2 : (utf8EncodeList (c :: cs)).length =
            (utf8EncodeChar c.toNat).length + (utf8EncodeList cs).length := by
          show (utf8EncodeChar c.toNat ++ utf8EncodeList cs).length = _
          rw [List.length_append]
        omega
      dsimp only
      rw [ih fuel hfuel, Option.map_some', Char.ofNat_toNat]

theorem decNum_encNum (x : JsNum) (hx : wfNum x) (rest : List ℕ) :
    decNum (encNum x ++ rest) = some (x, rest) := by
  cases x with
  | u n =>
    have hx' : n < 2 ^ 32 := hx
    unfold encNum
    dsimp only
    by_cases h1 : n < 0x80
    · rw [if_pos h1]
      simp only [List.cons_append, List.nil_append, decNum]
      rw [if_pos h1]
    · rw [if_neg h1]
      by_cases h2 : n < 0x100
      · rw [if_pos h2]
        simp only [List.cons_append, List.append_assoc, decNum]
        rw [if_pos trivial, readBE_beBytes 1 n rest (by omega), Option.map_some']
        simp
      · rw [if_neg h2]
        by_cases h3 : n < 0x10000
        · rw [if_pos h3]
          simp only [List.cons_append, List.append_assoc, decNum]
          rw [if_pos trivial, readBE_beBytes 2 n rest (by omega), Option.map_some']
          simp
        · rw [if_neg h3]
          simp only [List.cons_append, List.append_assoc, decNum]
          rw [if_pos trivial, readBE_beBytes 4 n rest (by omega), Option.map_some']
          simp
  | f64 bits =>
    have hx' : bits < 2 ^ 64 := hx
    show decNum (0xcb :: beBytes 8 bits ++ rest) = some (.f64 bits, rest)
    simp only [List.cons_append, List.append_assoc, decNum]
    rw [if_pos trivial, readBE_beBytes 8 bits rest (by omega), Option.map_some']
    simp

theorem decStrBody_utf8 (chunk rest : List ℕ) (cs : List Char)
    (hchunk : chunk = utf8EncodeList cs) :
    decStrBody chunk.length (chunk ++ rest) = some (⟨cs⟩, rest) := by
  unfold decStrBody
  rw [splitTake_append chunk rest]
  dsimp only
  rw [hchunk, utf8DecodeAll_encodeList cs _ (le_refl _)]

theorem decStr_encStr (s : String)
    (h : (utf8EncodeList s.data).length < 2 ^ 32) (rest : List ℕ) :
    decStr (encStr s ++ rest) = some (s, rest) := by
  have hs : (⟨s.data⟩ : String) = s := rfl
  unfold encStr
  by_cases h1 : (utf8EncodeList s.data).length < 0x20
  · rw [if_pos h1]
    simp only [List.cons_append, decStr]
    rw [if_pos (by omega)]
    have harg : 0xa0 + (utf8EncodeList s.data).length - 0xa0 =
        (utf8EncodeList s.data).length := by omega
    rw [harg, decStrBody_utf8 _ rest s.data rfl, hs]
  · rw [if_neg h1]
    by_cases h2 : (utf8EncodeList s.data).length < 0x100
    · rw [if_pos h2]
      simp only [List.cons_append, List.append_assoc, decStr]
      rw [if_pos trivial, readBE_beBytes 1 _ _ (by omega)]
      dsimp only
      rw [decStrBody_utf8 _ rest s.data rfl, hs]
      simp
    · rw [if_neg h2]
      by_cases h3 : (utf8EncodeList s.data).length < 0x10000
      · rw [if_pos h3]
        simp only [List.cons_append, List.append_assoc, decStr]
        rw [if_pos trivial, readBE_beBytes 2 _ _ (by omega)]
        dsimp only
        rw [decStrBody_utf8 _ rest s.data rfl, hs]
        simp
      · rw [if_neg h3]
        simp only [List.cons_append, List.append_assoc, decStr]
        rw [if_pos trivial, readBE_beBytes 4 _ _ (by omega)]
        dsimp only
        rw [decStrBody_utf8 _ rest s.data rfl, hs]
        simp

theorem decRecord_encRecord (r : WireRecord) (hr : wfRecord r)
    (rest : List ℕ) : decRecord (encRecord r ++ rest) = some (r, rest) := by
  rcases hr with ⟨hts, htag, hsp, hvc⟩
  unfold encRecord
  simp only [List.cons_append, List.append_assoc, decRecord]
  rw [if_pos trivial, decNum_encNum r.timestampMs hts]
  dsimp only
  rw [decStr_encStr r.routeTag htag]
  dsimp only
  rw [decNum_encNum r.speedKmh hsp]
  dsimp only
  rw [decNum_encNum r.vehicleCount hvc]

theorem decRecordsN_encRecordList (rs : List WireRecord)
    (h : ∀ r ∈ rs, wfRecord r) (rest : List ℕ) :
    decRecordsN rs.length (encRecordList rs ++ rest) = some (rs, rest) := by
  induction rs with
  | nil => rfl
  | cons r rs ih =>
    show decRecordsN (rs.length + 1) ((encRecord r ++ encRecordList rs) ++ rest) =
      some (r :: rs, rest)
    rw [List.append_assoc]
    show (match decRecord (encRecord r ++ (encRecordList rs ++ rest)) with
      | none => none
      | some (r, bs1) =>
        (decRecordsN rs.length bs1).map (fun p => (r :: p.1, p.2))) =
      some (r :: rs, rest)
    rw [decRecord_encRecord r (h r (List.mem_cons_self r rs))]
    dsimp only
    rw [ih (fun r' hr' => h r' (List.mem_cons_of_mem r hr')), Option.map_some']

/-- C2: decoding the encoding of any well-formed SpeedRecord sequence,
including the empty one, yields the sequence back: the msgpack packing
used by the save path round-trips through the unpacking used by the load
path. -/
theorem c2_codec_roundtrip (rs : List WireRecord) (h : wfRecordList rs) :
    unpackRecords (packRecords rs) = some rs := by
  rcases h with ⟨hlen, hall⟩
  have hbody : ∀ bs2, bs2 = encRecordList rs →
      (match decRecordsN rs.length bs2 with
        | none => none
        | some (rs', rest) => if rest = [] then some rs' else none) = some rs := by
    intro bs2 hbs2
    subst hbs2
    have := decRecordsN_encRecordList rs hall []
    rw [List.append_nil] at this
    rw [this]
    dsimp only
    rw [if_pos rfl]
  unfold packRecords
  by_cases h1 : rs.length < 0x10
  · rw [if_pos h1]
    simp only [List.cons_append, List.nil_append, unpackRecords]
    rw [if_pos (by omega)]
    dsimp only
    have harg : 0x90 + rs.length - 0x90 = rs.length := by omega
    rw [harg]
    exact hbody _ rfl
  · rw [if_neg h1]
    by_cases h2 : rs.length < 0x10000
    · rw [if_pos h2]
      simp only [List.cons_append, unpackRecords]
      rw [if_pos trivial, readBE_beBytes 2 _ _ (by omega)]
      exact hbody _ rfl
    · rw [if_neg h2]
      simp only [List.cons_append, unpackRecords]
      rw [if_pos trivial, readBE_beBytes 4 _ _ (by omega)]
      exact hbody _ rfl

theorem c2_witness :
    wfRecordList [] ∧ unpackRecords (packRecords []) = some [] ∧
    wfRecordList [⟨.f64 4735295453547602970, "7", .u 9, .u 17⟩] ∧
    unpackRecords (packRecords [⟨.f64 4735295453547602970, "7", .u 9, .u 17⟩]) =
      some [⟨.f64 4735295453547602970, "7", .u 9, .u 17⟩] :=
  have h1 : wfRecordList [] := ⟨by decide, fun r hr => absurd hr (by simp)⟩
  have h2 : wfRecordList [⟨.f64 4735295453547602970, "7", .u 9, .u 17⟩] := by
    refine ⟨by decide, ?_⟩
    intro r hr
    rw [List.mem_singleton] at hr
    subst hr
    exact ⟨show (4735295453547602970 : ℕ) < 2 ^ 64 by decide,
      by decide, show (9 : ℕ) < 2 ^ 32 by decide,
      show (17 : ℕ) < 2 ^ 32 by decide⟩
  ⟨h1, c2_codec_roundtrip [] h1, h2, c2_codec_roundtrip _ h2⟩

theorem c3_counterexample :
    unpackRecords [0xc1] = none ∧ loadCache (some [0xc1]) = [] ∧
    unpackRecords [0x92] = none ∧ loadCache (some [0x92]) = [] := by
  refine ⟨by decide, by decide, by decide, by decide⟩

/-- C3 (amended): decoding a corrupt or truncated byte stream fails at the
codec level with a decode error, but `loadCache` catches the error, logs
it and returns the empty sequence ("starting fresh"); the error is not
surfaced to the caller. -/
theorem c3_decode_error_masked (bytes : List ℕ)
    (h : unpackRecords bytes = none) : loadCache (some bytes) = [] := by
  unfold loadCache
  dsimp only
  rw [h]
  rfl

theorem c3_witness : unpackRecords [0xdc] = none ∧ loadCache (some [0xdc]) = [] :=
  ⟨by decide, c3_decode_error_masked [0xdc] (by decide)⟩

end TTC
